import Mathlib

/-!
Shallow embedding of the resolution-and-installation core of `ensureconda`
(`src/python/ensureconda/api.py` and `src/python/ensureconda/installer.py`).

Pure computations (version parsing, comparison, registry-record selection,
the retry loop) are translated directly.  Effectful pieces are made explicit:
a candidate executable carries the outcome of invoking it with `--version`
(`none` models a subprocess failure, `some s` models captured stdout), the
network and the two installers are inputs of the orchestrator, and the
file-system side of the atomic-write helper is modelled as a trace of
file-system operations.
-/

namespace Ensureconda

/-- Release components of a `packaging.version.Version`; the version strings
handled by this code base (`"1.4.7"`, `"23.5.0"`, registry versions) are plain
dotted numerals, so the release list is the whole model. -/
abbrev Ver := List Nat

/-- Comparison of the empty release list against `b`: equal exactly when all
remaining components of `b` are zero, otherwise less. -/
def verCompareNil : Ver → Ordering
  | [] => .eq
  | b :: bs => if 0 < b then .lt else verCompareNil bs

/-- Version comparison as `packaging` performs it on release components:
componentwise, with the shorter list padded with zeros (so `1.0 = 1.0.0`). -/
def verCompare : Ver → Ver → Ordering
  | [], b => verCompareNil b
  | a :: as, [] => if 0 < a then .gt else verCompare as []
  | a :: as, b :: bs =>
    if a < b then .lt else if b < a then .gt else verCompare as bs

/-- `v >= m` on parsed versions (`Version.__ge__`). -/
def verGe (v m : Ver) : Bool :=
  match verCompare v m with
  | .lt => false
  | _ => true

/-- The sentinel `Version("0.0.0")` returned when probing output carries no
recognizable version line. -/
def zeroVer : Ver := [0, 0, 0]

/-! ### Python string primitives, over `List Char` -/

/-- Characters stripped by `str.strip()` / splitting on by `str.split()`. -/
def isPySpace (c : Char) : Bool :=
  c = ' ' || c = '\t' || c = '\n' || c = '\r' || c = '\x0b' || c = '\x0c'

/-- `str.strip()`. -/
def pyStrip (l : List Char) : List Char :=
  ((l.dropWhile isPySpace).reverse.dropWhile isPySpace).reverse

/-- Helper for `pySplitlines`; a final newline produces no trailing empty
line, matching `str.splitlines()`. -/
def linesAux : List Char → List Char → List (List Char)
  | [], acc => [acc.reverse]
  | ['\n'], acc => [acc.reverse]
  | '\n' :: rest, acc => acc.reverse :: linesAux rest []
  | c :: rest, acc => linesAux rest (c :: acc)

/-- `str.splitlines(keepends=False)` for strings whose line breaks are `\n`
(the only line break produced by the tools probed here). -/
def pySplitlines (l : List Char) : List (List Char) :=
  if l.isEmpty then [] else linesAux l []

/-- Helper for `pySplitWhitespace`. -/
def wordsAux : List Char → List Char → List (List Char)
  | [], acc => if acc.isEmpty then [] else [acc.reverse]
  | c :: rest, acc =>
    if isPySpace c then
      if acc.isEmpty then wordsAux rest [] else acc.reverse :: wordsAux rest []
    else wordsAux rest (c :: acc)

/-- `str.split()` with no argument: split on runs of whitespace, no empty
tokens. -/
def pySplitWhitespace (l : List Char) : List (List Char) :=
  wordsAux l []

/-- `line.split()[-1]`: `none` models the `IndexError` on a token-free line. -/
def lastToken (l : List Char) : Option (List Char) :=
  (pySplitWhitespace l).getLast?

/-- Split on `'.'`, keeping empty segments (`"1..2"` gives an empty middle
segment, which then fails to parse, as in `packaging`). -/
def splitDotAux : List Char → List Char → List (List Char)
  | [], acc => [acc.reverse]
  | '.' :: rest, acc => acc.reverse :: splitDotAux rest []
  | c :: rest, acc => splitDotAux rest (c :: acc)

/-- Numeric value of a decimal digit character. -/
def digitVal (c : Char) : Nat := c.toNat - 48

/-- Parse a nonempty all-digit segment as a natural number. -/
def digitsToNat (l : List Char) : Option Nat :=
  if l ≠ [] ∧ l.all Char.isDigit then
    some (l.foldl (fun n c => n * 10 + digitVal c) 0)
  else none

/-- `packaging.version.Version(s)` restricted to the dotted-numeral grammar
actually produced by the probed tools and the registry; `none` models
`InvalidVersion`. -/
def parseVer (l : List Char) : Option Ver :=
  (splitDotAux l []).mapM digitsToNat

/-! ### Version probing (`api.py`) -/

/-- Equality of `Except` values is decidable componentwise (used to evaluate
the model on concrete inputs). -/
instance {ε α : Type} [DecidableEq ε] [DecidableEq α] : DecidableEq (Except ε α) :=
  fun x y =>
    match x, y with
    | .error a, .error b =>
      if h : a = b then .isTrue (h ▸ rfl)
      else .isFalse (fun c => h (Except.error.inj c))
    | .ok a, .ok b =>
      if h : a = b then .isTrue (h ▸ rfl)
      else .isFalse (fun c => h (Except.ok.inj c))
    | .error _, .ok _ => .isFalse (fun c => Except.noConfusion c)
    | .ok _, .error _ => .isFalse (fun c => Except.noConfusion c)

/-- Exceptions of the Python code that are visible to these claims. -/
inductive PyErr
  | calledProcessError
  | invalidVersion
  | indexError
  | noPackagesError
  | runtimeError
  | httpError (status : Nat)
  | timeoutError
  deriving DecidableEq

/-- A candidate executable: its path together with the observable outcome of
invoking it with `--version` (`none` models `subprocess.check_output`
raising — missing binary or non-zero exit; `some s` models captured,
decoded stdout). -/
structure Exe where
  path : String
  out : Option String
  deriving DecidableEq

/-- `subprocess.check_output([exe, "--version"], encoding="utf-8").strip()`. -/
def runVersionCommand (exe : Exe) : Except PyErr (List Char) :=
  match exe.out with
  | none => .error .calledProcessError
  | some raw => .ok (pyStrip raw.data)

/-- `Version(tok)` applied to a `line.split()[-1]` token. -/
def parseTokenVersion (line : List Char) : Except PyErr Ver :=
  match lastToken line with
  | none => .error .indexError
  | some tok =>
    match parseVer tok with
    | none => .error .invalidVersion
    | some v => .ok v

/-- `determine_micromamba_version` (api.py:44-51): the first line's trailing
token is the version; no lines at all yields `Version("0.0.0")`. -/
def determine_micromamba_version (exe : Exe) : Except PyErr Ver :=
  match runVersionCommand exe with
  | .error e => .error e
  | .ok out =>
    match pySplitlines out with
    | [] => .ok zeroVer
    | line :: _ => parseTokenVersion line

/-- `determine_mamba_version` (api.py:19-41): the first line starting with
`"mamba"` carries the version as its trailing token; if no such line exists,
fall back to micromamba-style detection. -/
def determine_mamba_version (exe : Exe) : Except PyErr Ver :=
  match runVersionCommand exe with
  | .error e => .error e
  | .ok out =>
    match (pySplitlines out).find? (fun l => "mamba".data.isPrefixOf l) with
    | some line => parseTokenVersion line
    | none => determine_micromamba_version exe

/-- `determine_conda_version` (api.py:54-62): the first line starting with
`"conda"` carries the version; otherwise `Version("0.0.0")`. -/
def determine_conda_version (exe : Exe) : Except PyErr Ver :=
  match runVersionCommand exe with
  | .error e => .error e
  | .ok out =>
    match (pySplitlines out).find? (fun l => "conda".data.isPrefixOf l) with
    | some line => parseTokenVersion line
    | none => .ok zeroVer

/-! ### The orchestrator (`ensureconda`, api.py:65-169) -/

/-- `version_constraint_met` (api.py:96-115): with no minimum the constraint
holds without probing; otherwise probe once and compare. -/
def version_constraint_met (executable : Exe) (min_version : Option Ver)
    (version_fn : Exe → Except PyErr Ver) : Except PyErr Bool :=
  match min_version with
  | none => .ok true
  | some m =>
    match version_fn executable with
    | .error e => .error e
    | .ok v => .ok (verGe v m)

/-- One `for exe in xxx_executables(): if exe and check(exe): return exe`
loop.  A `none` entry or an empty path is falsy and skipped without probing;
an exception from the check propagates. -/
def findFirstSat (cands : List (Option Exe)) (check : Exe → Except PyErr Bool) :
    Except PyErr (Option Exe) :=
  match cands with
  | [] => .ok none
  | none :: rest => findFirstSat rest check
  | some e :: rest =>
    if e.path = "" then findFirstSat rest check
    else
      match check e with
      | .error err => .error err
      | .ok true => .ok (some e)
      | .ok false => findFirstSat rest check

/-- The environment a single `ensureconda` call runs against: the candidate
streams produced by the resolvers (not part of the verified sources) and the
observable outcomes of the two installers. -/
structure Env where
  mambaExes : List (Option Exe)
  micromambaExes : List (Option Exe)
  condaExes : List (Option Exe)
  condaStandaloneExes : List (Option Exe)
  installMicromamba : Except PyErr (Option Exe)
  installCondaExe : Except PyErr (Option Exe)

/-- The keyword arguments of `ensureconda`. -/
structure Args where
  mamba : Bool
  micromamba : Bool
  conda : Bool
  conda_exe : Bool
  no_install : Bool
  min_conda_version : Option Ver
  min_mamba_version : Option Ver

/-- `ensureconda` (api.py:133-169), translated block by block: the four
tool-kind phases run in order, each falling through to the next; a raised
exception anywhere aborts the whole call. -/
def ensureconda (env : Env) (a : Args) : Except PyErr (Option Exe) :=
  let condaExePhase : Except PyErr (Option Exe) :=
    if a.conda_exe then
      match findFirstSat env.condaStandaloneExes
          (fun e => version_constraint_met e a.min_conda_version determine_conda_version) with
      | .error err => .error err
      | .ok (some e) => .ok (some e)
      | .ok none =>
        if !a.no_install then
          match env.installCondaExe with
          | .error err => .error err
          | .ok none => .ok none
          | .ok (some me) =>
            match version_constraint_met me a.min_conda_version determine_conda_version with
            | .error err => .error err
            | .ok true => .ok (some me)
            | .ok false => .ok none
        else .ok none
    else .ok none
  let condaPhase : Except PyErr (Option Exe) :=
    if a.conda then
      match findFirstSat env.condaExes
          (fun e => version_constraint_met e a.min_conda_version determine_conda_version) with
      | .error err => .error err
      | .ok (some e) => .ok (some e)
      | .ok none => condaExePhase
    else condaExePhase
  let micromambaPhase : Except PyErr (Option Exe) :=
    if a.micromamba then
      match findFirstSat env.micromambaExes
          (fun e => version_constraint_met e a.min_mamba_version determine_micromamba_version) with
      | .error err => .error err
      | .ok (some e) => .ok (some e)
      | .ok none =>
        if !a.no_install then
          match env.installMicromamba with
          | .error err => .error err
          | .ok none => condaPhase
          | .ok (some me) =>
            match version_constraint_met me a.min_mamba_version determine_micromamba_version with
            | .error err => .error err
            | .ok true => .ok (some me)
            | .ok false => condaPhase
        else condaPhase
    else condaPhase
  if a.mamba then
    match findFirstSat env.mambaExes
        (fun e => version_constraint_met e a.min_mamba_version determine_mamba_version) with
    | .error err => .error err
    | .ok (some e) => .ok (some e)
    | .ok none => micromambaPhase
  else micromambaPhase

/-! ### The specification-side resolution policy (spec.md §4.5)

These definitions transcribe the five numbered steps of the spec, for the
refinement claim C1; they are written from the spec's words, not from the
code. -/

/-- Spec §4.1: the Resolver's candidate sequence contains only usable
entries; invalid (falsy) entries are silently omitted. -/
def truthyExes (cands : List (Option Exe)) : List Exe :=
  (cands.filterMap id).filter (fun e => e.path != "")

/-- Spec §4.5 steps 1/3: "iterate Resolver candidates; return the first whose
version satisfies the constraint". -/
def firstSatisfying (cands : List Exe) (check : Exe → Except PyErr Bool) :
    Except PyErr (Option Exe) :=
  match cands with
  | [] => .ok none
  | e :: rest =>
    match check e with
    | .error err => .error err
    | .ok true => .ok (some e)
    | .ok false => firstSatisfying rest check

/-- Spec §4.5: a pure search step — if the tool kind is enabled, take the
first satisfying candidate, otherwise (or on a miss) fall through. -/
def specSearchStep (enabled : Bool) (cands : List Exe)
    (check : Exe → Except PyErr Bool) (fallthrough : Except PyErr (Option Exe)) :
    Except PyErr (Option Exe) :=
  if enabled then
    match firstSatisfying cands check with
    | .error err => .error err
    | .ok (some e) => .ok (some e)
    | .ok none => fallthrough
  else fallthrough

/-- Spec §4.5 steps 2/4, install part: "if none satisfy and installation is
permitted, run the ArchiveInstaller once and re-check the freshly installed
path against the constraint; return it if it satisfies, otherwise fall
through". -/
def specInstallRecheck (installPermitted : Bool)
    (installResult : Except PyErr (Option Exe)) (check : Exe → Except PyErr Bool)
    (fallthrough : Except PyErr (Option Exe)) : Except PyErr (Option Exe) :=
  if installPermitted then
    match installResult with
    | .error err => .error err
    | .ok none => fallthrough
    | .ok (some e) =>
      match check e with
      | .error err => .error err
      | .ok true => .ok (some e)
      | .ok false => fallthrough
  else fallthrough

/-- Spec §4.5 steps 2/4: search, then install-and-recheck on a total miss. -/
def specSearchInstallStep (enabled : Bool) (cands : List Exe)
    (check : Exe → Except PyErr Bool) (installPermitted : Bool)
    (installResult : Except PyErr (Option Exe))
    (fallthrough : Except PyErr (Option Exe)) : Except PyErr (Option Exe) :=
  if enabled then
    match firstSatisfying cands check with
    | .error err => .error err
    | .ok (some e) => .ok (some e)
    | .ok none => specInstallRecheck installPermitted installResult check fallthrough
  else fallthrough

/-- Spec §4.3 constraint evaluation bound to the mamba probing strategy. -/
def mambaCheck (a : Args) (e : Exe) : Except PyErr Bool :=
  version_constraint_met e a.min_mamba_version determine_mamba_version

/-- Spec §4.3 constraint evaluation bound to the micromamba probing
strategy. -/
def micromambaCheck (a : Args) (e : Exe) : Except PyErr Bool :=
  version_constraint_met e a.min_mamba_version determine_micromamba_version

/-- Spec §4.3 constraint evaluation bound to the conda probing strategy
(also used for conda-standalone). -/
def condaCheck (a : Args) (e : Exe) : Except PyErr Bool :=
  version_constraint_met e a.min_conda_version determine_conda_version

/-- Spec §4.5, the whole orchestration: mamba, micromamba (with install),
conda, conda-standalone (with install), in that fixed priority order; if no
step yields a satisfying candidate the result is "not found" (`none`). -/
def specResolve (env : Env) (a : Args) : Except PyErr (Option Exe) :=
  specSearchStep a.mamba (truthyExes env.mambaExes) (mambaCheck a)
    (specSearchInstallStep a.micromamba (truthyExes env.micromambaExes)
      (micromambaCheck a) (!a.no_install) env.installMicromamba
      (specSearchStep a.conda (truthyExes env.condaExes) (condaCheck a)
        (specSearchInstallStep a.conda_exe (truthyExes env.condaStandaloneExes)
          (condaCheck a) (!a.no_install) env.installCondaExe
          (.ok none))))

/-! ### The conda-standalone installer (`installer.py`) -/

/-- `AnacondaPkgAttr` (installer.py:25-34). -/
structure AnacondaPkgAttr where
  subdir : String
  build_number : Nat
  timestamp : Nat
  deriving DecidableEq

/-- `AnacondaPkg` (installer.py:37-44). -/
structure AnacondaPkg where
  size : Nat
  attrs : AnacondaPkgAttr
  type : String
  version : String
  download_url : String
  deriving DecidableEq

/-- The Python sort key `(Version(info.version), build_number, timestamp)`. -/
abbrev PkgSortKey := Ver × Nat × Nat

/-- Three-way comparison of naturals (Python `int` comparison). -/
def natCompare (a b : Nat) : Ordering :=
  if a < b then .lt else if b < a then .gt else .eq

/-- Lexicographic comparison of Python sort-key tuples. -/
def pkgKeyCompare (x y : PkgSortKey) : Ordering :=
  match verCompare x.1 y.1 with
  | .lt => .lt
  | .gt => .gt
  | .eq =>
    match natCompare x.2.1 y.2.1 with
    | .lt => .lt
    | .gt => .gt
    | .eq => natCompare x.2.2 y.2.2

/-- `x <= y` on Python sort-key tuples. -/
def pkgKeyLe (x y : PkgSortKey) : Bool :=
  match pkgKeyCompare x y with
  | .gt => false
  | _ => true

/-- Key computation for one record; `none` models `Version(info.version)`
raising `InvalidVersion` inside the sort. -/
def pkgKey (p : AnacondaPkg) : Option PkgSortKey :=
  (parseVer p.version.data).map (fun v => (v, p.attrs.build_number, p.attrs.timestamp))

/-- The sort relation used on key-decorated records. -/
def RKey (x y : AnacondaPkg × PkgSortKey) : Prop :=
  pkgKeyLe x.2 y.2 = true

instance : DecidableRel RKey := fun x y =>
  inferInstanceAs (Decidable (pkgKeyLe x.2 y.2 = true))

/-- CPython's `list.sort(key=...)` computes the key of every element, in list
order, before comparing; a key failure aborts the sort.  `decorate` performs
that key pass. -/
def decorate : List AnacondaPkg → Option (List (AnacondaPkg × PkgSortKey))
  | [] => some []
  | r :: rest =>
    match pkgKey r with
    | none => none
    | some k =>
      match decorate rest with
      | none => none
      | some ds => some ((r, k) :: ds)

/-- The candidate selection of `install_conda_exe` (installer.py:108-137):
filter the registry listing to the host subdir, stably sort ascending by
`(Version(version), build_number, timestamp)`, raise if the filtered set is
empty, and take the last element.  (The surrounding network fetch and the
download of the chosen record are inputs of `Env`.) -/
def install_conda_exe_selection (records : List AnacondaPkg) (subdir : String) :
    Except PyErr AnacondaPkg :=
  let candidates := records.filter (fun r => r.attrs.subdir == subdir)
  match decorate candidates with
  | none => .error .invalidVersion
  | some ds =>
    let sorted := List.insertionSort RKey ds
    match sorted.getLast? with
    | none => .error .noPackagesError
    | some chosen => .ok chosen.1

/-! ### The retrying fetch (`request_url_with_retry`, installer.py:47-62) -/

/-- Observable outcome of `request_url_with_retry`. -/
inductive FetchOutcome
  | success (status : Nat)
  | httpError (status : Nat)
  | timeoutError
  deriving DecidableEq

/-- Outcome, number of `requests.get` calls made, and the 0-based attempt
indices after which `time.sleep` ran. -/
structure FetchTrace where
  outcome : FetchOutcome
  attempts : Nat
  slept : List Nat
  deriving DecidableEq

/-- The `for i in range(n)` loop body: `resp.raise_for_status()` raises for
any status in 400..599; a 500 sleeps and retries, any other error status
re-raises, a non-error response returns immediately.  `fuel` is the number of
loop iterations left, `i` the current attempt index. -/
def fetchAttempts (statusOf : Nat → Nat) : Nat → Nat → FetchTrace
  | 0, i => ⟨.timeoutError, i, []⟩
  | fuel + 1, i =>
    let s := statusOf i
    if 400 ≤ s then
      if s = 500 then
        let rest := fetchAttempts statusOf fuel (i + 1)
        ⟨rest.outcome, rest.attempts, i :: rest.slept⟩
      else ⟨.httpError s, i + 1, []⟩
    else ⟨.success s, i + 1, []⟩

/-- `request_url_with_retry` with `n = 10`, driven by the HTTP status the
endpoint returns for each attempt index. -/
def request_url_with_retry (statusOf : Nat → Nat) : FetchTrace :=
  fetchAttempts statusOf 10 0

/-- `timeout = max(math.e ** (i / 4), 15)` (installer.py:56): the duration in
seconds slept after a 500 on attempt `i`. -/
noncomputable def sleepDuration (i : Nat) : ℝ :=
  max (Real.exp ((i : ℝ) / 4)) 15

/-! ### Atomic placement (`new_executable`, installer.py:164-177) -/

/-- File-system operations performed by the installer's write path. -/
inductive FsOp
  | acquireLock (path : String)
  | mkdirs (path : String)
  | openTrunc (path : String)
  | writeData (path : String) (data : String)
  | closeFile (path : String)
  | chmodExec (path : String)
  | rename (src dst : String)
  | releaseLock (path : String)
  deriving DecidableEq

/-- What the code block that receives the yielded file object does: either it
writes the full content, or it raises (e.g. the download stream fails while
being read). -/
inductive WriteBody
  | writes (content : String)
  | raises (e : PyErr)
  deriving DecidableEq

/-- `new_executable` (installer.py:164-177) as the trace of file-system
operations of one invocation.  `temp` stands for the fresh
`target.with_name(uuid4().hex)` name.  Both `with` blocks release their
resource on success and on an exception escaping the body, so the lock
acquired on `target + ".lock"` is released on every exit path; `chmod` and
`rename` run only when the body completed. -/
def new_executable (target temp : String) (body : WriteBody) :
    Except PyErr Unit × List FsOp :=
  match body with
  | .raises e =>
    (.error e,
      [.acquireLock (target ++ ".lock"), .openTrunc temp, .closeFile temp,
       .releaseLock (target ++ ".lock")])
  | .writes content =>
    (.ok (),
      [.acquireLock (target ++ ".lock"), .openTrunc temp,
       .writeData temp content, .closeFile temp, .chmodExec temp,
       .rename temp target, .releaseLock (target ++ ".lock")])

/-- `write_executable_from_file_object` (installer.py:76-81): ensure the
install directory exists, then hand the destination path to `new_executable`
and write `fo.read()` inside it.  Returns the computed target path, the
result, and the full trace. -/
def write_executable_from_file_object (sitePath destFilename temp : String)
    (body : WriteBody) : String × Except PyErr Unit × List FsOp :=
  let target := sitePath ++ "/" ++ destFilename
  let inner := new_executable target temp body
  (target, inner.1, .mkdirs sitePath :: inner.2)

/-! ### Concrete test data used by the claims -/

/-- The registry listing of the spec's worked example (§8). -/
def exampleRecords : List AnacondaPkg :=
  [⟨100, ⟨"linux-64", 1, 100⟩, "app", "1.0", "//u1"⟩,
   ⟨100, ⟨"linux-64", 0, 50⟩, "app", "1.2", "//u2"⟩,
   ⟨100, ⟨"osx-64", 0, 90⟩, "app", "1.2", "//u3"⟩]

/-- The record the spec's worked example expects to be selected. -/
def exampleChosen : AnacondaPkg :=
  ⟨100, ⟨"linux-64", 0, 50⟩, "app", "1.2", "//u2"⟩

/-- A registry listing whose only host-matching record has a version string
the version parser rejects. -/
def badVersionRecords : List AnacondaPkg :=
  [⟨100, ⟨"linux-64", 0, 10⟩, "app", "not.a.version", "//u4"⟩]

/-- An environment in which the first mamba candidate's `--version` subprocess
fails and the second candidate would satisfy any small constraint. -/
def envBrokenMamba : Env :=
  ⟨[some ⟨"/usr/local/bin/mamba", none⟩,
    some ⟨"/opt/conda/bin/mamba", some "mamba 1.9.0"⟩], [], [], [],
   .ok none, .ok none⟩

/-- Arguments searching only for mamba with the CLI's default mamba minimum
version 0.7.3. -/
def argsMambaOnly : Args :=
  ⟨true, false, false, false, true, none, some [0, 7, 3]⟩

/-- An environment with no candidates anywhere, in which running the
conda-standalone installer raises `err`. -/
def envInstallFailure (err : PyErr) : Env :=
  ⟨[], [], [], [], .ok none, .error err⟩

/-- Arguments enabling only the conda-standalone step, with installation
permitted. -/
def argsCondaExeOnly : Args :=
  ⟨false, false, false, true, false, none, none⟩

/-- An environment with exactly two conda candidates, used to observe the
zero-version sentinel being skipped. -/
def envTwoCondas (e₁ e₂ : Exe) : Env :=
  ⟨[], [], [some e₁, some e₂], [], .ok none, .ok none⟩

/-- Arguments searching only for conda under a minimum version `m`. -/
def argsCondaOnly (m : Ver) : Args :=
  ⟨false, false, true, false, true, some m, none⟩

end Ensureconda

namespace Ensureconda

/-! ### Helper lemmas -/

theorem verCompareNil_ne_gt : ∀ b : Ver, verCompareNil b ≠ .gt := by
  intro b
  induction b with
  | nil => simp [verCompareNil]
  | cons y ys ih =>
    simp only [verCompareNil]
    split
    · simp
    · exact ih

theorem verCompare_nil_left : ∀ b : Ver, verCompare [] b = verCompareNil b := fun _ => rfl

theorem verCompare_nil_right_swap : ∀ b : Ver, verCompare b [] = (verCompareNil b).swap := by
  intro b
  induction b with
  | nil => rfl
  | cons y ys ih =>
    simp only [verCompare, verCompareNil]
    split
    · rfl
    · exact ih

theorem verCompare_swap : ∀ a b : Ver, verCompare b a = (verCompare a b).swap := by
  intro a
  induction a with
  | nil =>
    intro b
    rw [verCompare_nil_left, verCompare_nil_right_swap]
  | cons x xs ih =>
    intro b
    cases b with
    | nil =>
      rw [verCompare_nil_right_swap, verCompare_nil_left]
      simp only [verCompare, verCompareNil]
      split
      · rfl
      · rw [Ordering.swap_swap]
    | cons y ys =>
      simp only [verCompare]
      rcases Nat.lt_trichotomy x y with h | h | h
      · simp [h, Nat.lt_asymm h, Ordering.swap]
      · simp [h, Nat.lt_irrefl, ih ys]
      · simp [h, Nat.lt_asymm h, Ordering.swap]

theorem verCompare_refl : ∀ a : Ver, verCompare a a = .eq := by
  intro a
  induction a with
  | nil => rfl
  | cons x xs ih => simp [verCompare, Nat.lt_irrefl, ih]



theorem verCompareNil_eq_trans : ∀ b : Ver, verCompareNil b = .eq →
    ∀ c : Ver, verCompare b c = verCompareNil c := by
  intro b
  induction b with
  | nil => intro _ c; rfl
  | cons y ys ih =>
    intro h c
    simp only [verCompareNil] at h
    by_cases hy : 0 < y
    · simp [hy] at h
    · simp only [hy, if_false] at h
      have hy0 : y = 0 := by omega
      subst hy0
      cases c with
      | nil =>
        simp only [verCompare, verCompareNil, Nat.lt_irrefl, if_false]
        rw [verCompare_nil_right_swap, h]
        rfl
      | cons z zs =>
        simp only [verCompare, verCompareNil]
        by_cases hz : 0 < z
        · simp [hz]
        · have hz0 : z = 0 := by omega
          subst hz0
          simp [Nat.lt_irrefl, ih h zs]

theorem verCompare_eq_left : ∀ a b : Ver, verCompare a b = .eq →
    ∀ c : Ver, verCompare b c = verCompare a c := by
  intro a
  induction a with
  | nil =>
    intro b h c
    rw [verCompare_nil_left] at h
    rw [verCompare_nil_left]
    exact verCompareNil_eq_trans b h c
  | cons x xs ih =>
    intro b h c
    cases b with
    | nil =>
      rw [verCompare_nil_right_swap] at h
      have hnil : verCompareNil (x :: xs) = .eq := by
        cases hx : verCompareNil (x :: xs) <;> rw [hx] at h <;> first | rfl | simp [Ordering.swap] at h
      simp only [verCompareNil] at hnil
      by_cases hx : 0 < x
      · simp [hx] at hnil
      · simp only [hx, if_false] at hnil
        have hx0 : x = 0 := by omega
        subst hx0
        cases c with
        | nil =>
          simp only [verCompare, Nat.lt_irrefl, if_false]
          rw [verCompare_nil_right_swap, hnil]
          rfl
        | cons z zs =>
          simp only [verCompare, verCompareNil]
          by_cases hz : 0 < z
          · simp [hz]
          · have hz0 : z = 0 := by omega
            subst hz0
            simp only [Nat.lt_irrefl, if_false]
            rw [verCompareNil_eq_trans xs hnil zs]
    | cons y ys =>
      simp only [verCompare] at h
      by_cases hxy : x < y
      · simp [hxy] at h
      · by_cases hyx : y < x
        · simp [hxy, hyx] at h
        · simp only [hxy, hyx, if_false] at h
          have hxy0 : x = y := by omega
          subst hxy0
          cases c with
          | nil =>
            simp only [verCompare]
            rw [ih ys h []]
          | cons z zs =>
            simp only [verCompare]
            by_cases h1 : x < z
            · simp [h1]
            · by_cases h2 : z < x
              · simp [h1, h2]
              · simp [h1, h2, ih ys h zs]

theorem verCompare_eq_right : ∀ b c : Ver, verCompare b c = .eq →
    ∀ a : Ver, verCompare a b = verCompare a c := by
  intro b c h a
  have h1 : verCompare c b = .eq := by rw [verCompare_swap, h]; rfl
  have h2 := verCompare_eq_left c b h1 a
  calc verCompare a b = (verCompare b a).swap := by rw [verCompare_swap b a]
    _ = (verCompare c a).swap := by rw [verCompare_eq_left c b h1 a]
    _ = verCompare a c := by rw [← verCompare_swap]



theorem verCompare_nil_right_ne_lt : ∀ a : Ver, verCompare a [] ≠ .lt := by
  intro a h
  rw [verCompare_nil_right_swap] at h
  cases hx : verCompareNil a
  · rw [hx] at h; simp [Ordering.swap] at h
  · rw [hx] at h; simp [Ordering.swap] at h
  · exact verCompareNil_ne_gt a hx

theorem verCompareNil_lt_trans : ∀ b : Ver, verCompareNil b = .lt →
    ∀ c : Ver, verCompare b c = .lt → verCompareNil c = .lt := by
  intro b
  induction b with
  | nil => intro h; simp [verCompareNil] at h
  | cons y ys ih =>
    intro h c hbc
    cases c with
    | nil => exact absurd hbc (verCompare_nil_right_ne_lt (y :: ys))
    | cons z zs =>
      simp only [verCompare] at hbc
      simp only [verCompareNil] at h ⊢
      by_cases h1 : y < z
      · have : 0 < z := by omega
        simp [this]
      · by_cases h2 : z < y
        · simp [h1, h2] at hbc
        · have hyz : y = z := by omega
          subst hyz
          simp only [h1, h2, if_false] at hbc
          by_cases hy : 0 < y
          · simp [hy]
          · simp only [hy, if_false] at h ⊢
            exact ih h zs hbc

theorem verCompare_lt_trans : ∀ a b c : Ver, verCompare a b = .lt →
    verCompare b c = .lt → verCompare a c = .lt := by
  intro a
  induction a with
  | nil =>
    intro b c hab hbc
    rw [verCompare_nil_left] at hab ⊢
    exact verCompareNil_lt_trans b hab c hbc
  | cons x xs ih =>
    intro b c hab hbc
    cases b with
    | nil => exact absurd hab (verCompare_nil_right_ne_lt (x :: xs))
    | cons y ys =>
      cases c with
      | nil => exact absurd hbc (verCompare_nil_right_ne_lt (y :: ys))
      | cons z zs =>
        simp only [verCompare] at hab hbc ⊢
        by_cases h1 : x < y
        · by_cases h3 : y < z
          · have : x < z := by omega
            simp [this]
          · by_cases h4 : z < y
            · simp [h3, h4] at hbc
            · have : x < z := by omega
              simp [this]
        · by_cases h2 : y < x
          · simp [h1, h2] at hab
          · have hxy : x = y := by omega
            subst hxy
            simp only [h1, h2, if_false] at hab
            by_cases h3 : x < z
            · simp [h3]
            · by_cases h4 : z < x
              · simp [h3, h4] at hbc
              · simp only [h3, h4, if_false] at hbc ⊢
                exact ih ys zs hab hbc



theorem pkgKeyLe_iff (x y : PkgSortKey) :
    pkgKeyLe x y = true ↔ (verCompare x.1 y.1 = .lt ∨
      (verCompare x.1 y.1 = .eq ∧
        (x.2.1 < y.2.1 ∨ (x.2.1 = y.2.1 ∧ x.2.2 ≤ y.2.2)))) := by
  simp only [pkgKeyLe, pkgKeyCompare, natCompare]
  cases h1 : verCompare x.1 y.1
  · simp
  · simp only []
    split_ifs <;> simp <;> omega
  · simp

theorem pkgKeyLe_refl (x : PkgSortKey) : pkgKeyLe x x = true :=
  (pkgKeyLe_iff x x).2 (Or.inr ⟨verCompare_refl x.1, Or.inr ⟨rfl, le_refl _⟩⟩)

theorem pkgKeyLe_total (x y : PkgSortKey) :
    pkgKeyLe x y = true ∨ pkgKeyLe y x = true := by
  rw [pkgKeyLe_iff, pkgKeyLe_iff]
  cases h : verCompare x.1 y.1
  · exact Or.inl (Or.inl rfl)
  · have h2 : verCompare y.1 x.1 = .eq := by rw [verCompare_swap, h]; rfl
    rcases Nat.lt_trichotomy x.2.1 y.2.1 with hb | hb | hb
    · exact Or.inl (Or.inr ⟨rfl, Or.inl hb⟩)
    · rcases Nat.le_total x.2.2 y.2.2 with ht | ht
      · exact Or.inl (Or.inr ⟨rfl, Or.inr ⟨hb, ht⟩⟩)
      · exact Or.inr (Or.inr ⟨h2, Or.inr ⟨hb.symm, ht⟩⟩)
    · exact Or.inr (Or.inr ⟨h2, Or.inl hb⟩)
  · have h2 : verCompare y.1 x.1 = .lt := by rw [verCompare_swap, h]; rfl
    exact Or.inr (Or.inl h2)

theorem pkgKeyLe_trans (x y z : PkgSortKey) (hxy : pkgKeyLe x y = true)
    (hyz : pkgKeyLe y z = true) : pkgKeyLe x z = true := by
  rw [pkgKeyLe_iff] at hxy hyz ⊢
  rcases hxy with h1 | ⟨h1, hb1⟩
  · rcases hyz with h2 | ⟨h2, _⟩
    · exact Or.inl (verCompare_lt_trans x.1 y.1 z.1 h1 h2)
    · exact Or.inl (by rw [← verCompare_eq_right y.1 z.1 h2 x.1]; exact h1)
  · rcases hyz with h2 | ⟨h2, hb2⟩
    · exact Or.inl (by rw [← verCompare_eq_left x.1 y.1 h1 z.1]; exact h2)
    · refine Or.inr ⟨by rw [← verCompare_eq_left x.1 y.1 h1 z.1]; exact h2, ?_⟩
      omega



theorem sorted_getLast_ub {α : Type} {R : α → α → Prop} (hrefl : ∀ a, R a a) :
    ∀ (l : List α) (_ : List.Sorted R l) (x : α) (_ : x ∈ l) (hne : l ≠ []),
      R x (l.getLast hne) := by
  intro l
  induction l with
  | nil => intro _ x hx; exact absurd hx (List.not_mem_nil x)
  | cons a t ih =>
    intro hs x hx hne
    cases t with
    | nil =>
      rcases List.mem_singleton.1 hx with rfl
      exact hrefl x
    | cons b t2 =>
      rw [List.getLast_cons (by simp : b :: t2 ≠ [])]
      rcases List.mem_cons.1 hx with rfl | hx2
      · exact List.rel_of_sorted_cons hs _ (List.getLast_mem _)
      · exact ih (List.Sorted.of_cons hs) x hx2 (by simp)

theorem decorate_map_fst : ∀ (l : List AnacondaPkg) (ds : List (AnacondaPkg × PkgSortKey)),
    decorate l = some ds → ds.map Prod.fst = l := by
  intro l
  induction l with
  | nil => intro ds h; cases h; rfl
  | cons r rest ih =>
    intro ds h
    simp only [decorate] at h
    cases hk : pkgKey r with
    | none => rw [hk] at h; cases h
    | some k =>
      rw [hk] at h
      cases hd : decorate rest with
      | none => rw [hd] at h; cases h
      | some ds2 =>
        rw [hd] at h
        cases h
        simp [ih ds2 hd]

theorem decorate_mem_key : ∀ (l : List AnacondaPkg) (ds : List (AnacondaPkg × PkgSortKey))
    (_ : decorate l = some ds) (p : AnacondaPkg × PkgSortKey), p ∈ ds → pkgKey p.1 = some p.2 := by
  intro l
  induction l with
  | nil => intro ds h p hp; cases h; cases hp
  | cons r rest ih =>
    intro ds h p hp
    simp only [decorate] at h
    cases hk : pkgKey r with
    | none => rw [hk] at h; cases h
    | some k =>
      rw [hk] at h
      cases hd : decorate rest with
      | none => rw [hd] at h; cases h
      | some ds2 =>
        rw [hd] at h
        cases h
        rcases List.mem_cons.1 hp with rfl | hp2
        · exact hk
        · exact ih ds2 hd p hp2

theorem decorate_mem_of_mem : ∀ (l : List AnacondaPkg) (ds : List (AnacondaPkg × PkgSortKey))
    (_ : decorate l = some ds) (r : AnacondaPkg), r ∈ l →
      ∀ k, pkgKey r = some k → (r, k) ∈ ds := by
  intro l
  induction l with
  | nil => intro ds _ r hr; exact absurd hr (List.not_mem_nil r)
  | cons r0 rest ih =>
    intro ds h r hr k hk
    simp only [decorate] at h
    cases hk0 : pkgKey r0 with
    | none => rw [hk0] at h; cases h
    | some k0 =>
      rw [hk0] at h
      cases hd : decorate rest with
      | none => rw [hd] at h; cases h
      | some ds2 =>
        rw [hd] at h
        cases h
        rcases List.mem_cons.1 hr with rfl | hr2
        · rw [hk0] at hk
          cases hk
          exact List.mem_cons_self _ _
        · exact List.mem_cons_of_mem _ (ih ds2 hd r hr2 k hk)

theorem decorate_none_of_bad : ∀ (l : List AnacondaPkg) (r : AnacondaPkg),
    r ∈ l → pkgKey r = none → decorate l = none := by
  intro l
  induction l with
  | nil => intro r hr; exact absurd hr (List.not_mem_nil r)
  | cons r0 rest ih =>
    intro r hr hk
    simp only [decorate]
    rcases List.mem_cons.1 hr with rfl | hr2
    · rw [hk]
    · cases hk0 : pkgKey r0 with
      | none => rfl
      | some k0 => rw [ih r hr2 hk]



theorem selection_is_max (records : List AnacondaPkg) (subdir : String)
    (chosen : AnacondaPkg) (h : install_conda_exe_selection records subdir = .ok chosen) :
    chosen ∈ records ∧ chosen.attrs.subdir = subdir ∧
    ∀ r ∈ records, r.attrs.subdir = subdir →
      ∀ kr kc, pkgKey r = some kr → pkgKey chosen = some kc → pkgKeyLe kr kc = true := by
  haveI hTot : IsTotal (AnacondaPkg × PkgSortKey) RKey :=
    ⟨fun a b => pkgKeyLe_total a.2 b.2⟩
  haveI hTrans : IsTrans (AnacondaPkg × PkgSortKey) RKey :=
    ⟨fun a b c => pkgKeyLe_trans a.2 b.2 c.2⟩
  simp only [install_conda_exe_selection] at h
  split at h
  · exact Except.noConfusion h
  · rename_i ds hd
    split at h
    · exact Except.noConfusion h
    · rename_i last hl
      injection h with hch
      subst hch
      have hne : List.insertionSort RKey ds ≠ [] := by
        intro hnil
        rw [hnil] at hl
        exact Option.noConfusion hl
      have hlast : (List.insertionSort RKey ds).getLast hne = last := by
        have h2 := List.getLast?_eq_getLast_of_ne_nil hne
        rw [hl] at h2
        exact (Option.some.inj h2).symm
      have hperm := List.perm_insertionSort RKey ds
      have hlast_mem_ds : last ∈ ds :=
        hperm.mem_iff.1 (hlast ▸ List.getLast_mem hne)
      have hlast_filter : last.1 ∈ records.filter (fun r => r.attrs.subdir == subdir) := by
        have h3 := decorate_map_fst _ ds hd
        rw [← h3]
        exact List.mem_map_of_mem Prod.fst hlast_mem_ds
      have hchosen_mem : last.1 ∈ records := (List.mem_filter.1 hlast_filter).1
      have hchosen_subdir : last.1.attrs.subdir = subdir :=
        beq_iff_eq.1 (List.mem_filter.1 hlast_filter).2
      refine ⟨hchosen_mem, hchosen_subdir, ?_⟩
      intro r hr hrsub kr kc hkr hkc
      have hrfilt : r ∈ records.filter (fun r => r.attrs.subdir == subdir) :=
        List.mem_filter.2 ⟨hr, beq_iff_eq.2 hrsub⟩
      have hrds : (r, kr) ∈ ds := decorate_mem_of_mem _ ds hd r hrfilt kr hkr
      have hrsorted : (r, kr) ∈ List.insertionSort RKey ds := hperm.symm.mem_iff.1 hrds
      have hub := @sorted_getLast_ub (AnacondaPkg × PkgSortKey) RKey
        (fun a => pkgKeyLe_refl a.2)
        (List.insertionSort RKey ds) (List.sorted_insertionSort RKey ds)
        (r, kr) hrsorted hne
      rw [hlast] at hub
      have hkey_last : pkgKey last.1 = some last.2 :=
        decorate_mem_key _ ds hd last hlast_mem_ds
      rw [hkc] at hkey_last
      rw [Option.some.inj hkey_last]
      exact hub



theorem selection_empty_error (records : List AnacondaPkg) (subdir : String)
    (h : ∀ r ∈ records, r.attrs.subdir ≠ subdir) :
    install_conda_exe_selection records subdir = .error .noPackagesError := by
  have hfilt : records.filter (fun r => r.attrs.subdir == subdir) = [] := by
    rw [List.filter_eq_nil_iff]
    intro r hr
    simp only [beq_iff_eq]
    exact h r hr
  simp only [install_conda_exe_selection, hfilt]
  rfl

theorem selection_invalid_version (records : List AnacondaPkg) (subdir : String)
    (r : AnacondaPkg) (hr : r ∈ records) (hsub : r.attrs.subdir = subdir)
    (hbad : parseVer r.version.data = none) :
    install_conda_exe_selection records subdir = .error .invalidVersion := by
  have hrfilt : r ∈ records.filter (fun r => r.attrs.subdir == subdir) :=
    List.mem_filter.2 ⟨hr, beq_iff_eq.2 hsub⟩
  have hkey : pkgKey r = none := by
    simp only [pkgKey, hbad]
    rfl
  have hdec := decorate_none_of_bad _ r hrfilt hkey
  simp only [install_conda_exe_selection, hdec]

theorem findFirstSat_eq_firstSatisfying :
    ∀ (cands : List (Option Exe)) (check : Exe → Except PyErr Bool),
      findFirstSat cands check = firstSatisfying (truthyExes cands) check := by
  intro cands check
  induction cands with
  | nil => rfl
  | cons c rest ih =>
    cases c with
    | none =>
      simp only [findFirstSat, truthyExes, List.filterMap_cons_none, ih]
      rfl
    | some e =>
      by_cases hp : e.path = ""
      · simp only [findFirstSat, hp, if_true]
        have ht : truthyExes (some e :: rest) = truthyExes rest := by
          simp [truthyExes, List.filterMap_cons, List.filter_cons, hp]
        rw [ht]
        exact ih
      · simp only [findFirstSat, hp, if_false]
        have ht : truthyExes (some e :: rest) = e :: truthyExes rest := by
          simp [truthyExes, List.filterMap_cons, List.filter_cons, hp]
        rw [ht]
        simp only [firstSatisfying]
        cases check e with
        | error err => rfl
        | ok b =>
          cases b with
          | true => rfl
          | false => exact ih



theorem fetchAttempts_attempts_le : ∀ (f : Nat → Nat) (fuel i : Nat),
    (fetchAttempts f fuel i).attempts ≤ i + fuel := by
  intro f fuel
  induction fuel with
  | zero => intro i; simp [fetchAttempts]
  | succ n ih =>
    intro i
    simp only [fetchAttempts]
    split
    · split
      · have h2 := ih (i + 1)
        show (fetchAttempts f n (i + 1)).attempts ≤ i + (n + 1)
        omega
      · show i + 1 ≤ i + (n + 1)
        omega
    · show i + 1 ≤ i + (n + 1)
      omega

theorem fetchAttempts_slept_bounds : ∀ (f : Nat → Nat) (fuel i j : Nat),
    j ∈ (fetchAttempts f fuel i).slept → i ≤ j ∧ j < i + fuel := by
  intro f fuel
  induction fuel with
  | zero => intro i j h; simp [fetchAttempts] at h
  | succ n ih =>
    intro i j h
    simp only [fetchAttempts] at h
    split at h
    · split at h
      · simp only [List.mem_cons] at h
        rcases h with rfl | h2
        · omega
        · have := ih (i + 1) j h2
          omega
      · simp at h
    · simp at h

theorem fetchAttempts_all500 : ∀ (f : Nat → Nat) (fuel i : Nat),
    (∀ j, i ≤ j → j < i + fuel → f j = 500) →
    fetchAttempts f fuel i = ⟨.timeoutError, i + fuel, List.range' i fuel⟩ := by
  intro f fuel
  induction fuel with
  | zero => intro i _; simp [fetchAttempts, List.range']
  | succ n ih =>
    intro i h
    have hi : f i = 500 := h i (le_refl i) (by omega)
    simp only [fetchAttempts, hi]
    norm_num
    rw [ih (i + 1) (fun j h1 h2 => h j (by omega) (by omega))]
    simp [List.range'_succ]
    omega

theorem fetchAttempts_skip : ∀ (f : Nat → Nat) (k fuel i : Nat), k ≤ fuel →
    (∀ j, i ≤ j → j < i + k → f j = 500) →
    fetchAttempts f fuel i =
      ⟨(fetchAttempts f (fuel - k) (i + k)).outcome,
       (fetchAttempts f (fuel - k) (i + k)).attempts,
       List.range' i k ++ (fetchAttempts f (fuel - k) (i + k)).slept⟩ := by
  intro f k
  induction k with
  | zero => intro fuel i _ _; simp
  | succ n ih =>
    intro fuel i hk h
    cases fuel with
    | zero => omega
    | succ m =>
      have hi : f i = 500 := h i (le_refl i) (by omega)
      simp only [fetchAttempts, hi]
      norm_num
      rw [ih m (i + 1) (by omega) (fun j h1 h2 => h j (by omega) (by omega))]
      have harith1 : m - n = m + 1 - (n + 1) := by omega
      have harith2 : i + 1 + n = i + (n + 1) := by omega
      rw [harith1, harith2]
      simp [List.range'_succ]



theorem fetch_success_at (f : Nat → Nat) (k : Nat) (hk : k < 10)
    (hpre : ∀ j, j < k → f j = 500) (hok : f k < 400) :
    request_url_with_retry f = ⟨.success (f k), k + 1, List.range' 0 k⟩ := by
  unfold request_url_with_retry
  rw [fetchAttempts_skip f k 10 0 (by omega) (fun j h1 h2 => hpre j (by omega))]
  have h10 : 10 - k = (10 - k - 1) + 1 := by omega
  rw [h10]
  simp only [fetchAttempts, Nat.zero_add]
  have : ¬ (400 ≤ f k) := by omega
  simp [this]

theorem fetch_http_error_at (f : Nat → Nat) (k : Nat) (hk : k < 10)
    (hpre : ∀ j, j < k → f j = 500) (herr : 400 ≤ f k) (hne : f k ≠ 500) :
    request_url_with_retry f = ⟨.httpError (f k), k + 1, List.range' 0 k⟩ := by
  unfold request_url_with_retry
  rw [fetchAttempts_skip f k 10 0 (by omega) (fun j h1 h2 => hpre j (by omega))]
  have h10 : 10 - k = (10 - k - 1) + 1 := by omega
  rw [h10]
  simp only [fetchAttempts, Nat.zero_add]
  simp [herr, hne]

theorem fetch_timeout (f : Nat → Nat) (h : ∀ j, j < 10 → f j = 500) :
    request_url_with_retry f = ⟨.timeoutError, 10, List.range' 0 10⟩ := by
  unfold request_url_with_retry
  rw [fetchAttempts_all500 f 10 0 (fun j h1 h2 => h j (by omega))]

end Ensureconda

namespace Ensureconda

theorem unique_middle {α : Type} (x : α) : ∀ (A B l₁ l₂ : List α),
    x ∉ A → x ∉ B → A ++ x :: B = l₁ ++ x :: l₂ → A = l₁ ∧ B = l₂ := by
  intro A
  induction A with
  | nil =>
    intro B l₁ l₂ _ hB h
    cases l₁ with
    | nil =>
      simp only [List.nil_append] at h
      injection h with _ h2
      exact ⟨rfl, h2⟩
    | cons y t =>
      simp only [List.nil_append, List.cons_append] at h
      injection h with h1 h2
      subst h1
      exact absurd (h2 ▸ List.mem_append_right t (List.mem_cons_self x l₂)) hB
  | cons a A2 ih =>
    intro B l₁ l₂ hA hB h
    cases l₁ with
    | nil =>
      simp only [List.cons_append, List.nil_append] at h
      injection h with h1 h2
      exact absurd (h1 ▸ List.mem_cons_self a A2) hA
    | cons y t =>
      simp only [List.cons_append] at h
      injection h with h1 h2
      subst h1
      have h3 := ih B t l₂ (fun hx => hA (List.mem_cons_of_mem a hx)) hB h2
      exact ⟨by rw [h3.1], h3.2⟩

end Ensureconda

namespace Ensureconda

/-- Claim C1: for every combination of enabled tool kinds, `ensureconda`
traverses them in the fixed priority order mamba, micromamba, conda,
conda-standalone and returns the first candidate whose probed version
satisfies the applicable constraint; for micromamba and conda-standalone, if
no existing candidate satisfies and installation is permitted, it runs the
installer once, re-checks the freshly installed path against the constraint,
and returns it only if it satisfies; if no step yields a satisfying
candidate, the result is `none`.  Formally: the translated `ensureconda`
coincides with `specResolve`, the step-by-step transcription of spec §4.5,
on every environment and argument combination. -/
theorem C1_resolution_follows_spec_order : ∀ (env : Env) (a : Args),
    ensureconda env a = specResolve env a := by
  intro env a
  simp only [ensureconda, specResolve, specSearchStep, specSearchInstallStep,
    specInstallRecheck, mambaCheck, micromambaCheck, condaCheck,
    findFirstSat_eq_firstSatisfying]
  rfl

/-- Counterexample to claim C2: in an environment whose first mamba candidate
fails its `--version` subprocess and whose second mamba candidate satisfies
the constraint, `ensureconda` raises `CalledProcessError` instead of skipping
the broken candidate and returning the good one. -/
theorem C2_counterexample :
    ensureconda envBrokenMamba argsMambaOnly = .error .calledProcessError ∧
    ensureconda envBrokenMamba argsMambaOnly ≠
      .ok (some ⟨"/opt/conda/bin/mamba", some "mamba 1.9.0"⟩) := by
  exact ⟨by decide, by decide⟩

/-- Claim C2 (amended): if probing one candidate fails with a subprocess
invocation failure, the failure is NOT confined to that candidate: there is
no exception handler around the probe, so the `CalledProcessError` propagates
out of `ensureconda` and aborts the whole resolution, regardless of any
remaining candidates or tool kinds. -/
theorem C2_probe_failure_aborts (env : Env) (a : Args) (e : Exe)
    (rest : List (Option Exe)) (m : Ver)
    (hmamba : a.mamba = true) (hmin : a.min_mamba_version = some m)
    (hexes : env.mambaExes = some e :: rest) (hpath : e.path ≠ "")
    (hout : e.out = none) :
    ensureconda env a = .error .calledProcessError := by
  have hprobe : determine_mamba_version e = .error .calledProcessError := by
    simp only [determine_mamba_version, runVersionCommand, hout]
  have hcheck : version_constraint_met e a.min_mamba_version determine_mamba_version =
      .error .calledProcessError := by
    simp only [version_constraint_met, hmin, hprobe]
  simp only [ensureconda, hexes, hmamba, if_true, findFirstSat, hpath, if_false, hcheck]

/-- Witness for the amended claim C2 at a concrete broken candidate. -/
theorem C2_probe_failure_aborts_witness :
    ensureconda envBrokenMamba argsMambaOnly = .error .calledProcessError :=
  C2_probe_failure_aborts envBrokenMamba argsMambaOnly
    ⟨"/usr/local/bin/mamba", none⟩
    [some ⟨"/opt/conda/bin/mamba", some "mamba 1.9.0"⟩] [0, 7, 3]
    rfl rfl rfl (by decide) rfl

end Ensureconda

namespace Ensureconda

/-- Claim C3: `install_conda_exe` keeps exactly the records whose subdir
equals the host subdir (the selected record always comes from that set) and
selects a maximum of the filtered set under the ascending ordering by the
tuple (parsed version, build number, timestamp); in particular, on the
spec's worked example with host subdir `linux-64` the selected record is the
one with version 1.2, build 0, timestamp 50. -/
theorem C3_selection_is_filtered_maximum :
    (∀ records subdir chosen,
      install_conda_exe_selection records subdir = .ok chosen →
      chosen ∈ records ∧ chosen.attrs.subdir = subdir ∧
      ∀ r ∈ records, r.attrs.subdir = subdir →
        ∀ kr kc, pkgKey r = some kr → pkgKey chosen = some kc →
          pkgKeyLe kr kc = true) ∧
    install_conda_exe_selection exampleRecords "linux-64" = .ok exampleChosen :=
  ⟨selection_is_max, by decide⟩

/-- Witness for claim C3 at the spec's worked example. -/
theorem C3_witness :
    exampleChosen ∈ exampleRecords ∧ exampleChosen.attrs.subdir = "linux-64" :=
  ⟨(C3_selection_is_filtered_maximum.1 exampleRecords "linux-64" exampleChosen
      (by decide)).1,
   (C3_selection_is_filtered_maximum.1 exampleRecords "linux-64" exampleChosen
      (by decide)).2.1⟩

/-- Claim C4: every write of an installed executable goes through
`new_executable`: the trace of one invocation starts by acquiring the lock
keyed on the destination path and ends, on every exit path (body success or
body exception), by releasing that same lock; every file opened for writing
and every write targets only the fresh temporary name, never the
destination; a rename appears only after the body completed, renames exactly
the temporary onto the destination, and is preceded by setting the
executable bit on the temporary and followed only by the lock release; and
`write_executable_from_file_object` performs its write precisely by
delegating to `new_executable` on the computed destination path. -/
theorem C4_atomic_write_discipline (target temp sitePath destFilename : String)
    (body : WriteBody) (hne : temp ≠ target) :
    ((new_executable target temp body).2.head? =
      some (.acquireLock (target ++ ".lock"))) ∧
    ((new_executable target temp body).2.getLast? =
      some (.releaseLock (target ++ ".lock"))) ∧
    (∀ p, FsOp.openTrunc p ∈ (new_executable target temp body).2 →
      p = temp ∧ p ≠ target) ∧
    (∀ p d, FsOp.writeData p d ∈ (new_executable target temp body).2 →
      p = temp ∧ p ≠ target) ∧
    (∀ s d, FsOp.rename s d ∈ (new_executable target temp body).2 →
      s = temp ∧ d = target ∧ ∃ c, body = .writes c) ∧
    (∀ l₁ l₂, (new_executable target temp body).2 =
        l₁ ++ FsOp.rename temp target :: l₂ →
      FsOp.chmodExec temp ∈ l₁ ∧ l₂ = [FsOp.releaseLock (target ++ ".lock")]) ∧
    ((write_executable_from_file_object sitePath destFilename temp body).2.2 =
      FsOp.mkdirs sitePath ::
        (new_executable (sitePath ++ "/" ++ destFilename) temp body).2) := by
  cases body with
  | raises e =>
    refine ⟨rfl, rfl, ?_, ?_, ?_, ?_, rfl⟩
    · intro p hp
      simp only [new_executable, List.mem_cons, List.not_mem_nil, or_false] at hp
      have hp2 : p = temp := by simp_all
      exact ⟨hp2, by rw [hp2]; exact hne⟩
    · intro p d hp
      simp only [new_executable, List.mem_cons, List.not_mem_nil, or_false] at hp
      exact absurd hp (by simp)
    · intro s d hs
      simp only [new_executable, List.mem_cons, List.not_mem_nil, or_false] at hs
      exact absurd hs (by simp)
    · intro l₁ l₂ h
      exfalso
      have hmem : FsOp.rename temp target ∈ (new_executable target temp (.raises e)).2 := by
        rw [h]
        exact List.mem_append_right l₁ (List.mem_cons_self _ l₂)
      simp only [new_executable, List.mem_cons, List.not_mem_nil, or_false] at hmem
      simp_all
  | writes content =>
    refine ⟨rfl, rfl, ?_, ?_, ?_, ?_, rfl⟩
    · intro p hp
      simp only [new_executable, List.mem_cons, List.not_mem_nil, or_false] at hp
      have hp2 : p = temp := by simp_all
      exact ⟨hp2, by rw [hp2]; exact hne⟩
    · intro p d hp
      simp only [new_executable, List.mem_cons, List.not_mem_nil, or_false] at hp
      have hp2 : p = temp := by simp_all
      exact ⟨hp2, by rw [hp2]; exact hne⟩
    · intro s d hs
      simp only [new_executable, List.mem_cons, List.not_mem_nil, or_false] at hs
      have hs2 : s = temp ∧ d = target := by simp_all
      exact ⟨hs2.1, hs2.2, content, rfl⟩
    · intro l₁ l₂ h
      have hdecomp := unique_middle (FsOp.rename temp target)
        [FsOp.acquireLock (target ++ ".lock"), FsOp.openTrunc temp,
         FsOp.writeData temp content, FsOp.closeFile temp, FsOp.chmodExec temp]
        [FsOp.releaseLock (target ++ ".lock")] l₁ l₂
        (by simp) (by simp) h
      refine ⟨?_, hdecomp.2.symm⟩
      rw [← hdecomp.1]
      simp

end Ensureconda

namespace Ensureconda

/-- Witness for claim C4 at a concrete destination, temporary name, and body
(both a completing body and a raising body). -/
theorem C4_witness :
    ((new_executable "/site/conda_standalone" "/site/7f3a" (.writes "ELF")).2.head? =
      some (.acquireLock "/site/conda_standalone.lock")) ∧
    ((new_executable "/site/conda_standalone" "/site/7f3a"
        (.raises .timeoutError)).2.getLast? =
      some (.releaseLock "/site/conda_standalone.lock")) :=
  ⟨(C4_atomic_write_discipline "/site/conda_standalone" "/site/7f3a" "/site"
      "conda_standalone" (.writes "ELF") (by decide)).1,
   (C4_atomic_write_discipline "/site/conda_standalone" "/site/7f3a" "/site"
      "conda_standalone" (.raises .timeoutError) (by decide)).2.1⟩

/-- Claim C5: the retrying fetch makes at most 10 attempts; an attempt ending
in HTTP 500 sleeps and retries, any other HTTP error status propagates
immediately, a successful response is returned immediately, and after 10
unsuccessful attempts a timeout-class error is raised; for the response
sequence (500, 500, 200) the fetch returns the 200 response after exactly 3
attempts. -/
theorem C5_retry_policy :
    (∀ f, (request_url_with_retry f).attempts ≤ 10) ∧
    (∀ f k, k < 10 → (∀ j, j < k → f j = 500) → f k < 400 →
      request_url_with_retry f = ⟨.success (f k), k + 1, List.range' 0 k⟩) ∧
    (∀ f k, k < 10 → (∀ j, j < k → f j = 500) → 400 ≤ f k → f k ≠ 500 →
      request_url_with_retry f = ⟨.httpError (f k), k + 1, List.range' 0 k⟩) ∧
    (∀ f, (∀ j, j < 10 → f j = 500) →
      request_url_with_retry f = ⟨.timeoutError, 10, List.range' 0 10⟩) ∧
    request_url_with_retry (fun i => if i < 2 then 500 else 200) =
      ⟨.success 200, 3, [0, 1]⟩ := by
  refine ⟨?_, fetch_success_at, fetch_http_error_at, fetch_timeout, by decide⟩
  intro f
  have h := fetchAttempts_attempts_le f 10 0
  exact h.trans (by omega)

/-- Witness for claim C5: immediate success, immediate permanent failure,
and full exhaustion, each at a concrete status function. -/
theorem C5_witness :
    request_url_with_retry (fun _ => 200) = ⟨.success 200, 0 + 1, List.range' 0 0⟩ ∧
    request_url_with_retry (fun _ => 404) = ⟨.httpError 404, 0 + 1, List.range' 0 0⟩ ∧
    request_url_with_retry (fun _ => 500) = ⟨.timeoutError, 10, List.range' 0 10⟩ :=
  ⟨C5_retry_policy.2.1 (fun _ => 200) 0 (by decide)
      (fun j hj => absurd hj (Nat.not_lt_zero j)) (by decide),
   C5_retry_policy.2.2.1 (fun _ => 404) 0 (by decide)
      (fun j hj => absurd hj (Nat.not_lt_zero j)) (by decide) (by decide),
   C5_retry_policy.2.2.2.1 (fun _ => 500) (fun j _ => rfl)⟩

/-- Claim C6: if no registry record matches the host subdir, the selection
inside `install_conda_exe` raises the fatal "No conda-standalone package
found" error, with no retry or fallback; and this outcome is distinguishable
from the orchestrator finishing its search empty-handed, because the raised
error propagates out of `ensureconda` as `.error` while an exhausted search
returns `.ok none`. -/
theorem C6_empty_candidate_set_fatal :
    (∀ records subdir, (∀ r ∈ records, r.attrs.subdir ≠ subdir) →
      install_conda_exe_selection records subdir = .error .noPackagesError) ∧
    (∀ err : PyErr,
      ensureconda (envInstallFailure err) argsCondaExeOnly = .error err ∧
      ensureconda (envInstallFailure err) argsCondaExeOnly ≠ .ok none) := by
  refine ⟨selection_empty_error, ?_⟩
  intro err
  exact ⟨rfl, fun h => Except.noConfusion h⟩

/-- Witness for claim C6 on an empty registry listing and on the orchestrator
propagating the fatal error. -/
theorem C6_witness :
    install_conda_exe_selection [] "linux-64" = .error .noPackagesError ∧
    ensureconda (envInstallFailure .noPackagesError) argsCondaExeOnly =
      .error .noPackagesError :=
  ⟨C6_empty_candidate_set_fatal.1 [] "linux-64"
      (fun r hr => absurd hr (List.not_mem_nil r)),
   (C6_empty_candidate_set_fatal.2 .noPackagesError).1⟩

end Ensureconda

namespace Ensureconda

/-- Claim C7: mamba version parsing takes the first output line beginning
with "mamba" and returns that line's trailing whitespace-delimited token as
the version; if no such line exists it falls back to micromamba-style
parsing (first line's trailing token); `"mamba 1.4.7\nconda 23.5.0"` parses
to 1.4.7 and `"2.0.8"` parses to 2.0.8. -/
theorem C7_mamba_version_parsing :
    (∀ (exe : Exe) (s : String), exe.out = some s →
      (∀ l ∈ pySplitlines (pyStrip s.data), "mamba".data.isPrefixOf l = false) →
      determine_mamba_version exe = determine_micromamba_version exe) ∧
    determine_mamba_version ⟨"/usr/bin/mamba", some "mamba 1.4.7\nconda 23.5.0"⟩ =
      .ok [1, 4, 7] ∧
    determine_mamba_version ⟨"/usr/bin/mamba", some "2.0.8"⟩ = .ok [2, 0, 8] := by
  refine ⟨?_, by decide, by decide⟩
  intro exe s hout hs
  have hfind : (pySplitlines (pyStrip s.data)).find?
      (fun l => "mamba".data.isPrefixOf l) = none :=
    List.find?_eq_none.2 (fun l hl => by simp [hs l hl])
  simp only [determine_mamba_version, runVersionCommand, hout, hfind]

/-- Witness for claim C7: the fallback branch taken at micromamba-style
output, with both concrete parses re-derived through the theorem. -/
theorem C7_witness :
    determine_mamba_version ⟨"/usr/bin/mamba", some "2.0.8"⟩ =
      determine_micromamba_version ⟨"/usr/bin/mamba", some "2.0.8"⟩ ∧
    determine_mamba_version ⟨"/usr/bin/mamba", some "mamba 1.4.7\nconda 23.5.0"⟩ =
      .ok [1, 4, 7] :=
  ⟨C7_mamba_version_parsing.1 ⟨"/usr/bin/mamba", some "2.0.8"⟩ "2.0.8" rfl
      (by decide),
   C7_mamba_version_parsing.2.1⟩

/-- Claim C8: when the conda probe's subprocess succeeds but its output
contains no line starting with "conda", the prober returns the zero-version
sentinel 0.0.0 instead of raising; under a minimum-version constraint that
the sentinel fails, the candidate is skipped and resolution continues with
the next candidate instead of aborting. -/
theorem C8_sentinel_skips_candidate (p₁ p₂ s out₂ : String) (m : Ver)
    (hp₁ : p₁ ≠ "") (hp₂ : p₂ ≠ "")
    (hs : ∀ l ∈ pySplitlines (pyStrip s.data), "conda".data.isPrefixOf l = false)
    (hm : verGe zeroVer m = false)
    (hsat : version_constraint_met ⟨p₂, some out₂⟩ (some m)
      determine_conda_version = .ok true) :
    determine_conda_version ⟨p₁, some s⟩ = .ok zeroVer ∧
    ensureconda (envTwoCondas ⟨p₁, some s⟩ ⟨p₂, some out₂⟩) (argsCondaOnly m) =
      .ok (some ⟨p₂, some out₂⟩) := by
  have hfind : (pySplitlines (pyStrip s.data)).find?
      (fun l => "conda".data.isPrefixOf l) = none :=
    List.find?_eq_none.2 (fun l hl => by simp [hs l hl])
  have h1 : determine_conda_version ⟨p₁, some s⟩ = .ok zeroVer := by
    simp only [determine_conda_version, runVersionCommand, hfind]
  have hc1 : version_constraint_met ⟨p₁, some s⟩ (some m)
      determine_conda_version = .ok false := by
    simp only [version_constraint_met, h1, hm]
  refine ⟨h1, ?_⟩
  simp only [ensureconda, envTwoCondas, argsCondaOnly, findFirstSat, hp₁,
    if_false, hc1]
  simp [hp₂, hsat]

/-- Witness for claim C8 at concrete conda candidates. -/
theorem C8_witness :
    determine_conda_version ⟨"/usr/bin/conda", some "usage: wrapper"⟩ = .ok zeroVer ∧
    ensureconda
      (envTwoCondas ⟨"/usr/bin/conda", some "usage: wrapper"⟩
        ⟨"/opt/conda/bin/conda", some "conda 23.5.0"⟩)
      (argsCondaOnly [4, 8, 2]) =
      .ok (some ⟨"/opt/conda/bin/conda", some "conda 23.5.0"⟩) :=
  C8_sentinel_skips_candidate "/usr/bin/conda" "/opt/conda/bin/conda"
    "usage: wrapper" "conda 23.5.0" [4, 8, 2] (by decide) (by decide) (by decide)
    (by decide) (by decide)

/-- Claim C9: for every retry attempt index `i` with `0 ≤ i < 10` that ends
in HTTP 500, the sleep duration before the next attempt is
`max(e^(i/4), 15)` seconds, hence at least 15 seconds; and every slept
attempt index recorded by the retry loop is below 10. -/
theorem C9_sleep_is_at_least_15 :
    (∀ i : Nat, i < 10 →
      sleepDuration i = max (Real.exp ((i : ℝ) / 4)) 15 ∧ 15 ≤ sleepDuration i) ∧
    (∀ f i, i ∈ (request_url_with_retry f).slept → i < 10) := by
  constructor
  · intro i _
    exact ⟨rfl, le_max_right _ _⟩
  · intro f i h
    have h2 := fetchAttempts_slept_bounds f 10 0 i h
    omega

/-- Witness for claim C9 at attempt index 0 and at the all-500 endpoint. -/
theorem C9_witness :
    15 ≤ sleepDuration 0 ∧ (0 ∈ (request_url_with_retry (fun _ => 500)).slept → 0 < 10) :=
  ⟨(C9_sleep_is_at_least_15.1 0 (by decide)).2,
   fun h => C9_sleep_is_at_least_15.2 (fun _ => 500) 0 h⟩

/-- Claim C10: if any registry record whose subdir matches the host carries a
version string the version parser rejects, `install_conda_exe` raises
`InvalidVersion` while computing the sort keys instead of skipping that
record, so one malformed version string aborts the whole installation. -/
theorem C10_malformed_version_aborts (records : List AnacondaPkg) (subdir : String)
    (r : AnacondaPkg) (hr : r ∈ records) (hsub : r.attrs.subdir = subdir)
    (hbad : parseVer r.version.data = none) :
    install_conda_exe_selection records subdir = .error .invalidVersion :=
  selection_invalid_version records subdir r hr hsub hbad

/-- Witness for claim C10 at a registry listing with one malformed matching
record. -/
theorem C10_witness :
    install_conda_exe_selection badVersionRecords "linux-64" = .error .invalidVersion :=
  C10_malformed_version_aborts badVersionRecords "linux-64"
    ⟨100, ⟨"linux-64", 0, 10⟩, "app", "not.a.version", "//u4"⟩
    (by decide) rfl (by decide)

end Ensureconda
